import Mathlib

/-!
Verification development for the pyhep2020-pyroot notebooks.

The notebooks are linear sequences of calls into a lazy, declarative
tabular-computation engine (filter / define / range / histogram /
array-export / cut-flow report).  The engine itself is not part of the
repository; following the specification document, its data model and
single-pass evaluation semantics are modelled here explicitly, and the
properties the specification promises are proved against that model.

The `largest_sum` kernels of `efficient_python.ipynb` (the jitted C++
version, the pure-Python version and the precompiled
`optimized_largest_sum`) are present in the repository and are embedded
directly from their source text.
-/

namespace RDF

/-- A row is a mapping from column name to value (values modelled as
integers). -/
abbrev Row := List (String × Int)

/-- Read the value of column `c` in row `r` (0 when absent). -/
def getCol (c : String) (r : Row) : Int :=
  ((r.lookup c).getD 0)

/-- Extend a row with a derived column (a Define node's effect on a row). -/
def addCol (name : String) (f : Row → Int) (r : Row) : Row :=
  r ++ [(name, f r)]

/-- Modelled from the spec: the terminal accumulation targets ("Action"
nodes) observable in the notebooks — a row counter, a fixed-binning
histogram (`Histo1D`) and the column-oriented array export (`AsNumpy`).
The engine providing them is external to the repository. -/
inductive ActionKind where
  | count : ActionKind
  | histo (col : String) (nbins : Nat) (lo hi : Int) : ActionKind
  | asNumpy (cols : List String) : ActionKind

/-- The accumulation state of an Action node after (part of) a pass. -/
inductive ActionState where
  | count (n : Nat) : ActionState
  | histo (bins : List Nat) (drops : Nat) : ActionState
  | asNumpy (buffers : List (List Int)) : ActionState
deriving DecidableEq

/-- Modelled from the spec: fixed-range binning — a value `v` falls in bin
`(v - lo) * nbins / (hi - lo)` when `lo ≤ v < hi` and in no bin otherwise
(dropped, not clamped). -/
def binIdx (nbins : Nat) (lo hi v : Int) : Option Nat :=
  if lo ≤ v ∧ v < hi then some ((v - lo) * nbins / (hi - lo)).toNat else none

/-- Increment bin `i` of a bin list. -/
def bump : List Nat → Nat → List Nat
  | [], _ => []
  | b :: bs, 0 => (b + 1) :: bs
  | b :: bs, i + 1 => b :: bump bs i

/-- The empty accumulation state of an action. -/
def initAction : ActionKind → ActionState
  | .count => .count 0
  | .histo _ nbins _ _ => .histo (List.replicate nbins 0) 0
  | .asNumpy cols => .asNumpy (cols.map (fun _ => []))

/-- Feed one surviving row to an action accumulator. -/
def accumulate : ActionKind → ActionState → Row → ActionState
  | .count, .count n, _ => .count (n + 1)
  | .histo c nbins lo hi, .histo bins drops, row =>
    match binIdx nbins lo hi (getCol c row) with
    | some i => .histo (bump bins i) drops
    | none => .histo bins (drops + 1)
  | .asNumpy cols, .asNumpy bufs, row =>
    .asNumpy (List.zipWith (fun c b => b ++ [getCol c row]) cols bufs)
  | _, s, _ => s

/-- Modelled from the spec: the computation-graph nodes — Filter, Define,
Range, terminal Action, and branching where several chains share an
upstream chain. -/
inductive GNode where
  | act (a : ActionKind) : GNode
  | filt (name : String) (pred : Row → Bool) (rest : GNode) : GNode
  | defn (name : String) (f : Row → Int) (rest : GNode) : GNode
  | rang (bound : Nat) (rest : GNode) : GNode
  | split (l r : GNode) : GNode

/-- The per-pass runtime state mirroring a graph's shape: filter
pass/total counters, Range's running counter, and action accumulators. -/
inductive GState where
  | act (s : ActionState) : GState
  | filt (passCount totalSeen : Nat) (rest : GState) : GState
  | defn (rest : GState) : GState
  | rang (seen : Nat) (rest : GState) : GState
  | split (l r : GState) : GState
deriving DecidableEq

/-- The state of a graph before any row has been processed. -/
def initState : GNode → GState
  | .act a => .act (initAction a)
  | .filt _ _ t => .filt 0 0 (initState t)
  | .defn _ _ t => .defn (initState t)
  | .rang _ t => .rang 0 (initState t)
  | .split l r => .split (initState l) (initState r)

/-- Modelled from the spec: walking one source row root-to-leaves —
a failing Filter short-circuits its branch after counting, Define extends
the row, Range forwards only while its bound is unreached, and every
reachable Action accumulates the row. -/
def step (t : GNode) (s : GState) (row : Row) : GState :=
  match t, s with
  | .act a, .act st => .act (accumulate a st row)
  | .filt _ p rest, .filt pc tc st =>
    if p row then .filt (pc + 1) (tc + 1) (step rest st row)
    else .filt pc (tc + 1) st
  | .defn nm f rest, .defn st => .defn (step rest st (addCol nm f row))
  | .rang n rest, .rang seen st =>
    if seen < n then .rang (seen + 1) (step rest st row) else .rang seen st
  | .split l r, .split sl sr => .split (step l sl row) (step r sr row)
  | _, s => s

/-- The single evaluation pass: fold every source row through the graph. -/
def run (t : GNode) (rows : List Row) : GState :=
  rows.foldl (step t) (initState t)

/-- The cut-flow report: for each named Filter node in declaration order,
the tuple (name, passCount, totalSeenAtThisNode). -/
def reportOf : GNode → GState → List (String × Nat × Nat)
  | .filt nm _ rest, .filt pc tc st => (nm, pc, tc) :: reportOf rest st
  | .defn _ _ rest, .defn st => reportOf rest st
  | .rang _ rest, .rang _ st => reportOf rest st
  | .split l r, .split sl sr => reportOf l sl ++ reportOf r sr
  | _, _ => []

/-- Declarative characterisation of the cut-flow report: counts expressed
directly as lengths of filtered row lists, to be proved equal to the
operational counters accumulated by `run`. -/
def declReport : GNode → List Row → List (String × Nat × Nat)
  | .filt nm p rest, rows =>
    (nm, (rows.filter p).length, rows.length) :: declReport rest (rows.filter p)
  | .defn nm f rest, rows => declReport rest (rows.map (addCol nm f))
  | .rang n rest, rows => declReport rest (rows.take n)
  | .split l r, rows => declReport l rows ++ declReport r rows
  | .act _, _ => []

/-- Extract the accumulation state of the action at the end of a linear
chain. -/
def actionState : GState → Option ActionState
  | .act s => some s
  | .filt _ _ st => actionState st
  | .defn st => actionState st
  | .rang _ st => actionState st
  | .split _ _ => none

/-- Modelled from the spec: per-filter efficiency `passCount /
totalSeenAtThisNode`, defined to be `0` when `totalSeenAtThisNode = 0`
instead of being a division error. -/
def efficiency (passCount totalSeen : Nat) : ℚ :=
  if totalSeen = 0 then 0 else (passCount : ℚ) / (totalSeen : ℚ)

/-- Modelled from the spec: cumulative efficiency `passCount /
totalSeenAtSourceRoot`. -/
def cumulativeEff (passCount totalRoot : Nat) : ℚ :=
  (passCount : ℚ) / (totalRoot : ℚ)

/-- The cumulative efficiency of the report entry at position `i`, as
rendered when the report is printed. -/
def cumEffOfEntry (rep : List (String × Nat × Nat)) (totalRoot : Nat) (i : Nat) : ℚ :=
  match rep.get? i with
  | some e => cumulativeEff e.2.1 totalRoot
  | none => 0

/-- A linear chain of named filters in declaration order, ending in an
arbitrary subgraph. -/
def chainOf (ps : List (String × (Row → Bool))) (leaf : GNode) : GNode :=
  ps.foldr (fun p t => .filt p.1 p.2 t) leaf

/-- The rows of a source that survive a chain of filters, in source
order. -/
def survivors (ps : List (String × (Row → Bool))) (rows : List Row) : List Row :=
  ps.foldl (fun rs p => rs.filter p.2) rows

/-- A read of a booked result either yields the value, reports that the
result is not yet materialised, or propagates a source failure. -/
inductive ReadError where
  | notReady : ReadError
  | sourceReadError : ReadError
deriving DecidableEq

/-- Modelled from the spec: a Graph owns the booked terminal chains, the
row source (each source item either a row or a mid-pass read failure),
an all-or-nothing cache of the single evaluation pass, and an
instrumentation counter of how many times the source was iterated. -/
structure Graph where
  booked : List GNode
  source : List (Except Unit Row)
  cache : Option (Except Unit (List GState))
  sourceIters : Nat

/-- A fresh, unevaluated graph over a source. -/
def mkGraph (booked : List GNode) (src : List (Except Unit Row)) : Graph :=
  ⟨booked, src, none, 0⟩

/-- Advance every booked chain's state by one source row (the shared
pass visits each row once for all booked results). -/
def stepAll (ts : List GNode) (ss : List GState) (row : Row) : List GState :=
  List.zipWith (fun t s => step t s row) ts ss

/-- One source item of the shared pass: a failed read aborts the pass. -/
def stepSource (ts : List GNode) (acc : Except Unit (List GState))
    (item : Except Unit Row) : Except Unit (List GState) :=
  match acc with
  | .error e => .error e
  | .ok ss =>
    match item with
    | .error _ => .error ()
    | .ok row => .ok (stepAll ts ss row)

/-- The single shared evaluation pass: iterate the source once, feeding
every row to every booked chain; abort on the first failed read. -/
def onePass (ts : List GNode) (src : List (Except Unit Row)) :
    Except Unit (List GState) :=
  src.foldl (stepSource ts) (.ok (ts.map initState))

/-- Booking appends a terminal chain and immediately returns a handle
(the chain's index); nothing is executed. -/
def Graph.book (g : Graph) (t : GNode) : Graph × Nat :=
  ({ g with booked := g.booked ++ [t] }, g.booked.length)

/-- Trigger evaluation: run the single pass and cache its outcome, unless
a pass already happened (the cache is all-or-nothing, so results are
committed atomically or not at all). -/
def Graph.evaluate (g : Graph) : Graph :=
  match g.cache with
  | some _ => g
  | none =>
    { g with
      cache := some (onePass g.booked g.source)
      sourceIters := g.sourceIters + 1 }

/-- Look up the materialised result of handle `j` in the cache. -/
def Graph.resultAt (g : Graph) (j : Nat) : Except ReadError GState :=
  match g.cache with
  | none => .error .notReady
  | some (.error _) => .error .sourceReadError
  | some (.ok ss) =>
    match ss.get? j with
    | some s => .ok s
    | none => .error .notReady

/-- Access the value of booked result `j`: the first access triggers the
shared evaluation pass. -/
def Graph.read (g : Graph) (j : Nat) : Graph × Except ReadError GState :=
  let g2 := g.evaluate
  (g2, g2.resultAt j)

/-- Access the cut-flow report of booked chain `j`; like any result
access this triggers the shared evaluation pass on first access. -/
def Graph.readReport (g : Graph) (j : Nat) :
    Graph × Except ReadError (List (String × Nat × Nat)) :=
  let g2 := g.evaluate
  (g2, match g2.cache, g2.booked.get? j with
       | some (.ok ss), some t =>
         match ss.get? j with
         | some s => .ok (reportOf t s)
         | none => .error .notReady
       | some (.error _), _ => .error .sourceReadError
       | _, _ => .error .notReady)

/-- Perform a sequence of result accesses, threading the graph state. -/
def Graph.readMany (g : Graph) (js : List Nat) : Graph :=
  js.foldl (fun h j => (h.read j).1) g

/-- Whether booked result `j` is materialised (externally observable as
"filled"). -/
def Graph.filled (g : Graph) (j : Nat) : Bool :=
  match g.cache with
  | some (.ok ss) => j < ss.length
  | _ => false

/-- Modelled from the spec: the construction-time error taxonomy. -/
inductive ConstructionError where
  | invalidExpression : ConstructionError
  | nameCollision : ConstructionError
deriving DecidableEq

/-- A construction-time description of a chain node (the columns a
predicate or derivation expression references). -/
inductive NodeDecl where
  | filterDecl (name : String) (cols : List String) : NodeDecl
  | defineDecl (name : String) (cols : List String) : NodeDecl
deriving DecidableEq

/-- Modelled from the spec: the graph-construction state — the column
schema known at this point of the chain and the nodes linked so far. -/
structure Chain where
  schema : List String
  nodes : List NodeDecl
deriving DecidableEq

/-- Modelled from the spec: `filter` appends a Filter node, failing with
`InvalidExpression` at construction time when the predicate references a
column absent from the schema; on failure no node is linked. -/
def Chain.filterOp (c : Chain) (name : String) (cols : List String) :
    Except ConstructionError Chain :=
  if cols.all (fun col => c.schema.contains col) then
    .ok { c with nodes := c.nodes ++ [.filterDecl name cols] }
  else .error .invalidExpression

/-- Modelled from the spec: `define` appends a Define node, failing with
`NameCollision` when the name already exists upstream (and with
`InvalidExpression` when the expression references an unknown column);
on failure no node is linked. -/
def Chain.defineOp (c : Chain) (name : String) (cols : List String) :
    Except ConstructionError Chain :=
  if c.schema.contains name then .error .nameCollision
  else if cols.all (fun col => c.schema.contains col) then
    .ok { schema := c.schema ++ [name], nodes := c.nodes ++ [.defineDecl name cols] }
  else .error .invalidExpression

/-- A native-side contiguous buffer (e.g. a `std::vector<float>` or a
numpy array's storage), modelled by its element list. -/
structure NativeBuffer where
  data : List Int
deriving DecidableEq

/-- Modelled from the spec: zero-copy adoption (`np.asarray` of an RVec /
`ROOT.VecOps.AsRVec` of a numpy array) yields a borrowed view holding no
copy — every read of the view dereferences the owner's buffer. -/
def NativeBuffer.viewGet (b : NativeBuffer) (i : Nat) : Int :=
  b.data.getD i 0

/-- Mutate the owning buffer in place at index `i`. -/
def NativeBuffer.setElem (b : NativeBuffer) (i : Nat) (v : Int) : NativeBuffer :=
  ⟨b.data.set i v⟩

/-- The jitted C++ kernel of `efficient_python.ipynb`:
`float largest_sum(float* v1, float* v2, std::size_t size)` — two nested
index loops over `[0, size)` folding `if (tmp > r) r = tmp` from the
sentinel `-999`. -/
def largestSumCpp (v1 v2 : List Int) (size : Nat) : Int :=
  (List.range size).foldl
    (fun r i1 =>
      (List.range size).foldl
        (fun r2 i2 =>
          if v1.getD i1 0 + v2.getD i2 0 > r2 then v1.getD i1 0 + v2.getD i2 0 else r2)
        r)
    (-999)

/-- The precompiled kernel `optimized_largest_sum` of `analysis.cxx`
(shown verbatim in the notebook's output): its body is identical to the
jitted `largest_sum`. -/
def optimizedLargestSum (v1 v2 : List Int) (size : Nat) : Int :=
  (List.range size).foldl
    (fun r i1 =>
      (List.range size).foldl
        (fun r2 i2 =>
          if v1.getD i1 0 + v2.getD i2 0 > r2 then v1.getD i1 0 + v2.getD i2 0 else r2)
        r)
    (-999)

/-- The pure-Python `largest_sum(x1, x2)` of `efficient_python.ipynb`:
two nested element loops folding `if tmp > r: r = tmp` from `-999.0`. -/
def largestSumPy (x1 x2 : List Int) : Int :=
  x1.foldl
    (fun r e1 =>
      x2.foldl
        (fun r2 e2 =>
          if e1 + e2 > r2 then e1 + e2 else r2)
        r)
    (-999)

/-- All pairwise sums `v1[i1] + v2[i2]` in index order. -/
def pairSums (v1 v2 : List Int) : List Int :=
  (v1.map (fun a => v2.map (fun b => a + b))).flatten

/-- Follows the claim's words: "the maximum of `v1[i1] + v2[i2]` over all
index pairs, with `-999` returned when the inputs are empty". -/
def claimedLargestSum (v1 v2 : List Int) : Int :=
  match pairSums v1 v2 with
  | [] => -999
  | x :: xs => xs.foldl max x

/-- What the three kernels actually compute: the maximum of the sentinel
`-999` and all pairwise sums. -/
def amendedLargestSum (v1 v2 : List Int) : Int :=
  (pairSums v1 v2).foldl max (-999)

/-! ### Operational characterisation of the single pass, node by node -/

theorem foldl_step_split (l r : GNode) (rows : List Row) :
    ∀ (sl sr : GState),
      rows.foldl (step (.split l r)) (.split sl sr)
        = .split (rows.foldl (step l) sl) (rows.foldl (step r) sr) := by
  induction rows with
  | nil => intro sl sr; rfl
  | cons x xs ih => intro sl sr; simp only [List.foldl_cons, step, ih]

/-- Evaluation distributes over branching: each branch's state is what a
standalone run of that branch over the same source would produce. -/
theorem run_split (l r : GNode) (rows : List Row) :
    run (.split l r) rows = .split (run l rows) (run r rows) := by
  simp only [run, initState, foldl_step_split]

theorem foldl_step_filt (nm : String) (p : Row → Bool) (rest : GNode)
    (rows : List Row) :
    ∀ (pc tc : Nat) (st : GState),
      rows.foldl (step (.filt nm p rest)) (.filt pc tc st)
        = .filt (pc + (rows.filter p).length) (tc + rows.length)
            ((rows.filter p).foldl (step rest) st) := by
  induction rows with
  | nil => intro pc tc st; simp
  | cons x xs ih =>
    intro pc tc st
    by_cases h : p x
    · simp only [List.foldl_cons, step, h, if_true, ih, List.filter_cons,
        List.length_cons, GState.filt.injEq, and_true, true_and]
      omega
    · simp only [List.foldl_cons, step, h, Bool.false_eq_true, if_false, ih,
        List.filter_cons, List.length_cons, GState.filt.injEq, and_true, true_and]
      omega

/-- A Filter node ends a pass with `passCount` = number of upstream rows
satisfying the predicate, `totalSeen` = number of upstream rows, and its
downstream chain fed exactly the surviving rows in source order. -/
theorem run_filt (nm : String) (p : Row → Bool) (rest : GNode) (rows : List Row) :
    run (.filt nm p rest) rows
      = .filt (rows.filter p).length rows.length (run rest (rows.filter p)) := by
  simp [run, initState, foldl_step_filt]

theorem foldl_step_defn (nm : String) (f : Row → Int) (rest : GNode)
    (rows : List Row) :
    ∀ (st : GState),
      rows.foldl (step (.defn nm f rest)) (.defn st)
        = .defn ((rows.map (addCol nm f)).foldl (step rest) st) := by
  induction rows with
  | nil => intro st; rfl
  | cons x xs ih => intro st; simp only [List.foldl_cons, List.map_cons, step, ih]

/-- A Define node forwards every row extended with the derived column. -/
theorem run_defn (nm : String) (f : Row → Int) (rest : GNode) (rows : List Row) :
    run (.defn nm f rest) rows = .defn (run rest (rows.map (addCol nm f))) := by
  simp [run, initState, foldl_step_defn]

theorem foldl_step_rang (n : Nat) (rest : GNode) (rows : List Row) :
    ∀ (seen : Nat) (st : GState),
      rows.foldl (step (.rang n rest)) (.rang seen st)
        = .rang (seen + min (n - seen) rows.length)
            ((rows.take (n - seen)).foldl (step rest) st) := by
  induction rows with
  | nil => intro seen st; simp
  | cons x xs ih =>
    intro seen st
    by_cases h : seen < n
    · have hns : n - seen = (n - (seen + 1)) + 1 := by omega
      rw [List.foldl_cons]
      simp only [step, h, if_true, ih, List.length_cons]
      rw [hns, List.take_succ_cons, List.foldl_cons]
      refine congrArg₂ _ (by omega) rfl
    · have h0 : n - seen = 0 := by omega
      rw [List.foldl_cons]
      simp only [step, h, if_false, ih, h0, List.take_zero, List.foldl_nil,
        List.length_cons]
      refine congrArg₂ _ (by omega) rfl

/-- A Range node forwards exactly the first `min n (upstream survivors)`
rows to its own branch. -/
theorem run_rang (n : Nat) (rest : GNode) (rows : List Row) :
    run (.rang n rest) rows = .rang (min n rows.length) (run rest (rows.take n)) := by
  simp [run, initState, foldl_step_rang]

theorem foldl_step_act (a : ActionKind) (rows : List Row) :
    ∀ (st : ActionState),
      rows.foldl (step (.act a)) (.act st) = .act (rows.foldl (accumulate a) st) := by
  induction rows with
  | nil => intro st; rfl
  | cons x xs ih => intro st; simp only [List.foldl_cons, step, ih]

/-- A terminal Action accumulates exactly the rows surviving its chain. -/
theorem run_act (a : ActionKind) (rows : List Row) :
    run (.act a) rows = .act (rows.foldl (accumulate a) (initAction a)) := by
  simp [run, initState, foldl_step_act]

/-- The operational cut-flow counters accumulated by the single pass agree
with the declarative per-filter counts. -/
theorem reportOf_run (t : GNode) : ∀ (rows : List Row),
    reportOf t (run t rows) = declReport t rows := by
  induction t with
  | act a => intro rows; rw [run_act]; rfl
  | filt nm p rest ih =>
    intro rows
    rw [run_filt]
    simp only [reportOf, declReport, ih]
  | defn nm f rest ih =>
    intro rows
    rw [run_defn]
    simp only [reportOf, declReport, ih]
  | rang n rest ih =>
    intro rows
    rw [run_rang]
    simp only [reportOf, declReport, ih]
  | split l r ihl ihr =>
    intro rows
    rw [run_split]
    simp only [reportOf, declReport, ihl, ihr]

/-- Running a chain of filters and then looking at its terminal action is
the same as running the terminal subgraph on the surviving rows. -/
theorem actionState_chainOf (ps : List (String × (Row → Bool))) :
    ∀ (leaf : GNode) (rows : List Row),
      actionState (run (chainOf ps leaf) rows)
        = actionState (run leaf (survivors ps rows)) := by
  induction ps with
  | nil => intro leaf rows; rfl
  | cons p ps ih =>
    intro leaf rows
    have h1 : chainOf (p :: ps) leaf = .filt p.1 p.2 (chainOf ps leaf) := rfl
    have h2 : survivors (p :: ps) rows = survivors ps (rows.filter p.2) := rfl
    rw [h1, run_filt, h2]
    simpa [actionState] using ih leaf (rows.filter p.2)

/-! ### Action accumulators -/

theorem count_fold (rows : List Row) :
    ∀ (k : Nat), rows.foldl (accumulate .count) (.count k) = .count (k + rows.length) := by
  induction rows with
  | nil => intro k; rfl
  | cons x xs ih =>
    intro k
    simp only [List.foldl_cons, accumulate, ih, List.length_cons]
    exact congrArg _ (by omega)

theorem zipWith_map_self {α β γ : Type} (f : α → β → γ) (g : α → β) :
    ∀ (l : List α), List.zipWith f l (l.map g) = l.map (fun a => f a (g a)) := by
  intro l
  induction l with
  | nil => rfl
  | cons x xs ih => simp only [List.map_cons, List.zipWith_cons_cons, ih]

theorem asNumpy_fold (cols : List String) (rows : List Row) :
    ∀ (g : String → List Int),
      rows.foldl (accumulate (.asNumpy cols)) (.asNumpy (cols.map g))
        = .asNumpy (cols.map (fun c => g c ++ rows.map (getCol c))) := by
  induction rows with
  | nil => intro g; simp
  | cons x xs ih =>
    intro g
    rw [List.foldl_cons]
    have hstep : accumulate (.asNumpy cols) (.asNumpy (cols.map g)) x
        = .asNumpy (cols.map (fun c => g c ++ [getCol c x])) := by
      simp only [accumulate, zipWith_map_self]
    rw [hstep, ih (fun c => g c ++ [getCol c x])]
    simp

theorem bump_length : ∀ (l : List Nat) (i : Nat), (bump l i).length = l.length := by
  intro l
  induction l with
  | nil => intro i; rfl
  | cons b bs ih =>
    intro i
    cases i with
    | zero => rfl
    | succ j => simp only [bump, List.length_cons, ih]

theorem bump_sum : ∀ (l : List Nat) (i : Nat), i < l.length → (bump l i).sum = l.sum + 1 := by
  intro l
  induction l with
  | nil => intro i h; simp at h
  | cons b bs ih =>
    intro i h
    cases i with
    | zero => simp [bump]; omega
    | succ j =>
      simp only [bump, List.sum_cons, ih j (by simpa using h)]
      omega

/-- An in-range value falls into a bin index strictly below the bin
count. -/
theorem binIdx_lt (nbins : Nat) (lo hi v : Int) (hn : 0 < nbins) (hlh : lo < hi) :
    ∀ i, binIdx nbins lo hi v = some i → i < nbins := by
  intro i h
  unfold binIdx at h
  by_cases hc : lo ≤ v ∧ v < hi
  · rw [if_pos hc] at h
    obtain ⟨h1, h2⟩ := hc
    injection h with h
    subst h
    have hd : (0 : Int) < hi - lo := by omega
    have hge : (0 : Int) ≤ (v - lo) * nbins / (hi - lo) :=
      Int.ediv_nonneg (mul_nonneg (by omega) (by positivity)) (le_of_lt hd)
    have hlt : (v - lo) * nbins / (hi - lo) < (nbins : Int) := by
      rw [Int.ediv_lt_iff_lt_mul hd, mul_comm ((nbins : Int)) (hi - lo)]
      exact mul_lt_mul_of_pos_right (by omega) (by exact_mod_cast hn)
    omega
  · rw [if_neg hc] at h
    cases h

theorem histo_fold (c : String) (nbins : Nat) (lo hi : Int)
    (hn : 0 < nbins) (hlh : lo < hi) (rows : List Row) :
    ∀ (bins : List Nat) (drops : Nat), bins.length = nbins →
      ∃ bins2 drops2,
        rows.foldl (accumulate (.histo c nbins lo hi)) (.histo bins drops)
          = .histo bins2 drops2
        ∧ bins2.length = nbins
        ∧ bins2.sum + drops2 = bins.sum + drops + rows.length := by
  induction rows with
  | nil => intro bins drops hb; exact ⟨bins, drops, rfl, hb, by simp⟩
  | cons x xs ih =>
    intro bins drops hb
    rw [List.foldl_cons]
    cases hbin : binIdx nbins lo hi (getCol c x) with
    | some i =>
      have hi2 : i < nbins := binIdx_lt nbins lo hi (getCol c x) hn hlh i hbin
      have hstep : accumulate (.histo c nbins lo hi) (.histo bins drops) x
          = .histo (bump bins i) drops := by
        simp only [accumulate, hbin]
      rw [hstep]
      obtain ⟨b2, d2, he, hl, hs⟩ := ih (bump bins i) drops (by rw [bump_length]; exact hb)
      refine ⟨b2, d2, he, hl, ?_⟩
      rw [hs, bump_sum bins i (by omega)]
      simp only [List.length_cons]
      omega
    | none =>
      have hstep : accumulate (.histo c nbins lo hi) (.histo bins drops) x
          = .histo bins (drops + 1) := by
        simp only [accumulate, hbin]
      rw [hstep]
      obtain ⟨b2, d2, he, hl, hs⟩ := ih bins (drops + 1) hb
      refine ⟨b2, d2, he, hl, ?_⟩
      rw [hs]
      simp only [List.length_cons]
      omega

/-! ### The shared single pass and the graph lifecycle -/

theorem foldl_stepSource_error (ts : List GNode) (e : Unit) :
    ∀ (src : List (Except Unit Row)),
      src.foldl (stepSource ts) (.error e) = .error e := by
  intro src
  induction src with
  | nil => rfl
  | cons x xs ih => simpa [List.foldl_cons, stepSource] using ih

/-- A failed source read anywhere in the source makes the whole pass
fail. -/
theorem onePass_error (ts : List GNode) :
    ∀ (src : List (Except Unit Row)) (ss : List GState), Except.error () ∈ src →
      src.foldl (stepSource ts) (.ok ss) = .error () := by
  intro src
  induction src with
  | nil => intro ss h; cases h
  | cons x xs ih =>
    intro ss h
    cases x with
    | error e =>
      rw [List.foldl_cons]
      simpa [stepSource] using foldl_stepSource_error ts () xs
    | ok row =>
      rcases List.mem_cons.mp h with h1 | h2
      · cases h1
      · rw [List.foldl_cons]
        simpa [stepSource] using ih (stepAll ts ss row) h2

theorem onePass_error_of_mem (ts : List GNode) (src : List (Except Unit Row))
    (h : Except.error () ∈ src) : onePass ts src = .error () :=
  onePass_error ts src (ts.map initState) h

theorem foldl_stepSource_ok (ts : List GNode) (rows : List Row) :
    ∀ (ss : List GState),
      (rows.map Except.ok).foldl (stepSource ts) (.ok ss)
        = .ok (rows.foldl (stepAll ts) ss) := by
  induction rows with
  | nil => intro ss; rfl
  | cons x xs ih => intro ss; simpa [List.foldl_cons, stepSource] using ih (stepAll ts ss x)

theorem stepAll_map (ts : List GNode) (f : GNode → GState) (row : Row) :
    stepAll ts (ts.map f) row = ts.map (fun t => step t (f t) row) := by
  simp [stepAll, zipWith_map_self]

theorem foldl_stepAll_map (ts : List GNode) (rows : List Row) :
    ∀ (f : GNode → GState),
      rows.foldl (stepAll ts) (ts.map f)
        = ts.map (fun t => rows.foldl (step t) (f t)) := by
  induction rows with
  | nil => intro f; rfl
  | cons x xs ih =>
    intro f
    rw [List.foldl_cons, stepAll_map, ih (fun t => step t (f t) x)]
    simp

/-- On a source whose reads all succeed, the single shared pass computes,
for every booked chain, exactly what a standalone run of that chain over
the rows computes. -/
theorem onePass_ok (ts : List GNode) (rows : List Row) :
    onePass ts (rows.map Except.ok) = .ok (ts.map (fun t => run t rows)) := by
  rw [onePass, foldl_stepSource_ok, foldl_stepAll_map]
  rfl

theorem foldl_stepSource_ok_length (ts : List GNode) :
    ∀ (src : List (Except Unit Row)) (acc : Except Unit (List GState))
      (ss : List GState),
      src.foldl (stepSource ts) acc = .ok ss →
      (∀ ss0, acc = .ok ss0 → ss0.length = ts.length) →
      ss.length = ts.length := by
  intro src
  induction src with
  | nil =>
    intro acc ss h hacc
    exact hacc ss (by simpa using h)
  | cons x xs ih =>
    intro acc ss h hacc
    rw [List.foldl_cons] at h
    refine ih (stepSource ts acc x) ss h ?_
    intro ss0 h0
    cases acc with
    | error e => simp [stepSource] at h0
    | ok ss1 =>
      cases x with
      | error e => simp [stepSource] at h0
      | ok row =>
        simp only [stepSource, Except.ok.injEq] at h0
        subst h0
        simp [stepAll, hacc ss1 rfl]

/-- A committed pass holds one materialised state per booked chain. -/
theorem onePass_length (ts : List GNode) (src : List (Except Unit Row))
    (ss : List GState) (h : onePass ts src = .ok ss) : ss.length = ts.length := by
  refine foldl_stepSource_ok_length ts src (.ok (ts.map initState)) ss h ?_
  intro ss0 h0
  simp only [Except.ok.injEq] at h0
  subst h0
  simp

theorem evaluate_of_isSome (g : Graph) (x : Except Unit (List GState))
    (h : g.cache = some x) : g.evaluate = g := by
  unfold Graph.evaluate
  rw [h]

theorem evaluate_cache (g : Graph) (h : g.cache = none) :
    g.evaluate
      = { g with
          cache := some (onePass g.booked g.source)
          sourceIters := g.sourceIters + 1 } := by
  unfold Graph.evaluate
  rw [h]

theorem evaluate_idem (g : Graph) : g.evaluate.evaluate = g.evaluate := by
  cases h : g.cache with
  | some x => rw [evaluate_of_isSome g x h, evaluate_of_isSome g x h]
  | none => rw [evaluate_cache g h]; exact evaluate_of_isSome _ _ rfl

theorem readMany_cons (g : Graph) (j : Nat) (js : List Nat) :
    g.readMany (j :: js) = (g.evaluate).readMany js := rfl

theorem readMany_of_isSome (js : List Nat) :
    ∀ (g : Graph), g.cache.isSome → g.readMany js = g := by
  induction js with
  | nil => intro g _; rfl
  | cons j js ih =>
    intro g h
    obtain ⟨x, hx⟩ := Option.isSome_iff_exists.mp h
    rw [readMany_cons, evaluate_of_isSome g x hx]
    exact ih g h

/-- Any nonempty sequence of result accesses amounts to exactly one
evaluation. -/
theorem readMany_ne_nil (g : Graph) (js : List Nat) (h : js ≠ []) :
    g.readMany js = g.evaluate := by
  cases js with
  | nil => exact absurd rfl h
  | cons j js =>
    rw [readMany_cons]
    refine readMany_of_isSome js g.evaluate ?_
    cases hc : g.cache with
    | some x => rw [evaluate_of_isSome g x hc, hc]; rfl
    | none => rw [evaluate_cache g hc]; rfl

/-! ### Remaining helper lemmas -/

/-- Every report entry satisfies `passCount ≤ totalSeen`. -/
theorem declReport_pass_le (t : GNode) : ∀ (rows : List Row) (e : String × Nat × Nat),
    e ∈ declReport t rows → e.2.1 ≤ e.2.2 := by
  induction t with
  | act a => intro rows e h; cases h
  | filt nm p rest ih =>
    intro rows e h
    rcases List.mem_cons.mp h with h1 | h2
    · subst h1; exact List.length_filter_le p rows
    · exact ih (rows.filter p) e h2
  | defn nm f rest ih => intro rows e h; exact ih (rows.map (addCol nm f)) e h
  | rang n rest ih => intro rows e h; exact ih (rows.take n) e h
  | split l r ihl ihr =>
    intro rows e h
    rcases List.mem_append.mp h with h1 | h2
    · exact ihl rows e h1
    · exact ihr rows e h2

theorem getD_set_self : ∀ (l : List Int) (i : Nat) (v : Int), i < l.length →
    (l.set i v).getD i 0 = v := by
  intro l
  induction l with
  | nil => intro i v h; simp at h
  | cons x xs ih =>
    intro i v h
    cases i with
    | zero => rfl
    | succ j => simpa using ih j v (by simpa using h)

theorem getD_set_ne : ∀ (l : List Int) (i j : Nat) (v : Int), j ≠ i →
    (l.set i v).getD j 0 = l.getD j 0 := by
  intro l
  induction l with
  | nil => intro i j v h; rfl
  | cons x xs ih =>
    intro i j v h
    cases i with
    | zero =>
      cases j with
      | zero => exact absurd rfl h
      | succ k => rfl
    | succ i2 =>
      cases j with
      | zero => rfl
      | succ k => simpa using ih i2 k v (fun he => h (by rw [he]))

theorem ite_gt_eq_max (r s : Int) : (if s > r then s else r) = max r s := by
  rcases le_or_lt s r with h | h
  · rw [if_neg (not_lt.mpr h), max_eq_left h]
  · rw [if_pos h, max_eq_right (le_of_lt h)]

theorem nested_foldl_eq_flatten : ∀ (L : List (List Int)) (a : Int),
    L.foldl (fun r l => l.foldl max r) a = L.flatten.foldl max a := by
  intro L
  induction L with
  | nil => intro a; rfl
  | cons l Ls ih =>
    intro a
    rw [List.foldl_cons, ih, List.flatten_cons, List.foldl_append]

/-- An index loop `for i in [0, v.length)` reading `v[i]` is an element
loop over `v`. -/
theorem foldl_range_getD (v : List Int) (g : Int → Int → Int) :
    ∀ (a : Int),
      (List.range v.length).foldl (fun r i => g r (v.getD i 0)) a = v.foldl g a := by
  induction v with
  | nil => intro a; rfl
  | cons x xs ih =>
    intro a
    rw [List.length_cons, List.range_succ_eq_map, List.foldl_cons, List.foldl_map]
    simp only [List.getD_cons_succ, List.getD_cons_zero]
    exact ih (g a x)

/-- The pure-Python kernel computes the maximum of the sentinel `-999`
and all pairwise sums. -/
theorem largestSumPy_eq_amended (v1 v2 : List Int) :
    largestSumPy v1 v2 = amendedLargestSum v1 v2 := by
  unfold largestSumPy amendedLargestSum pairSums
  rw [← nested_foldl_eq_flatten, List.foldl_map]
  congr 1
  funext r e1
  rw [List.foldl_map]
  congr 1
  funext r2 e2
  exact ite_gt_eq_max r2 (e1 + e2)

/-- On equal-length inputs the jitted C++ kernel agrees with the
pure-Python kernel. -/
theorem largestSumCpp_eq_py (v1 v2 : List Int) (size : Nat)
    (h1 : size = v1.length) (h2 : size = v2.length) :
    largestSumCpp v1 v2 size = largestSumPy v1 v2 := by
  unfold largestSumCpp largestSumPy
  have hfun : (fun (r : Int) (i1 : Nat) =>
      (List.range size).foldl
        (fun r2 i2 =>
          if v1.getD i1 0 + v2.getD i2 0 > r2 then v1.getD i1 0 + v2.getD i2 0 else r2)
        r)
      = fun (r : Int) (i1 : Nat) =>
        v2.foldl
          (fun r2 e2 =>
            if v1.getD i1 0 + e2 > r2 then v1.getD i1 0 + e2 else r2)
          r := by
    funext r i1
    rw [h2]
    exact foldl_range_getD v2
      (fun r2 e2 => if v1.getD i1 0 + e2 > r2 then v1.getD i1 0 + e2 else r2) r
  rw [hfun, h1]
  exact foldl_range_getD v1
    (fun r e1 => v2.foldl (fun r2 e2 => if e1 + e2 > r2 then e1 + e2 else r2) r) (-999)

/-! ### Claim theorems -/

/-- C10 counterexample: the claim describes the common result as "the
maximum of `v1[i1] + v2[i2]` over all index pairs", but at
`v1 = [-2000]`, `v2 = [0]` every kernel returns the sentinel `-999`
while the maximum over all index pairs is `-2000`: the fold starts at
`-999` and only ever moves up. -/
theorem claim10_counterexample :
    largestSumCpp [-2000] [0] 1 ≠ claimedLargestSum [-2000] [0] := by decide

/-- C10 (amended): for every pair of equal-length input vectors, the
jitted C++ `largest_sum`, the precompiled `optimized_largest_sum` and the
pure-Python `largest_sum` compute the same result, namely the maximum of
the sentinel `-999` and all pairwise sums `v1[i1] + v2[i2]` (hence `-999`
when the inputs are empty). -/
theorem claim10_kernels_agree (v1 v2 : List Int) (size : Nat)
    (h1 : size = v1.length) (h2 : size = v2.length) :
    largestSumCpp v1 v2 size = amendedLargestSum v1 v2
    ∧ optimizedLargestSum v1 v2 size = amendedLargestSum v1 v2
    ∧ largestSumPy v1 v2 = amendedLargestSum v1 v2 := by
  have hcpp : largestSumCpp v1 v2 size = largestSumPy v1 v2 :=
    largestSumCpp_eq_py v1 v2 size h1 h2
  have hopt : optimizedLargestSum v1 v2 size = largestSumCpp v1 v2 size := rfl
  have hpy : largestSumPy v1 v2 = amendedLargestSum v1 v2 :=
    largestSumPy_eq_amended v1 v2
  exact ⟨hcpp.trans hpy, (hopt.trans hcpp).trans hpy, hpy⟩

/-- C10 witness: the three kernels agree on a concrete equal-length
input, and the common value is the expected one. -/
theorem claim10_kernels_agree_witness :
    (largestSumCpp [1, -5] [2, 3] 2 = amendedLargestSum [1, -5] [2, 3]
    ∧ optimizedLargestSum [1, -5] [2, 3] 2 = amendedLargestSum [1, -5] [2, 3]
    ∧ largestSumPy [1, -5] [2, 3] = amendedLargestSum [1, -5] [2, 3])
    ∧ amendedLargestSum [1, -5] [2, 3] = 4 :=
  ⟨claim10_kernels_agree [1, -5] [2, 3] 2 rfl rfl, by decide⟩

/-- C8: buffer adoption is zero-copy — the adopted array is a borrowed
view of the owner's buffer, so for every valid index `i`, mutating the
owner at `i` is visible when reading the view at `i` (and indices other
than `i` read unchanged values). -/
theorem claim8_zero_copy_view (b : NativeBuffer) (i : Nat) (v : Int)
    (h : i < b.data.length) :
    (b.setElem i v).viewGet i = v
    ∧ ∀ j, j ≠ i → (b.setElem i v).viewGet j = b.viewGet j := by
  constructor
  · exact getD_set_self b.data i v h
  · intro j hj
    exact getD_set_ne b.data i j v hj

/-- C8 witness: the notebooks' own example — owner `(1, 2, 3)`, set
`owner[0] = 42` after adoption, and the view reads `42` at index 0 while
index 1 still reads `2`. -/
theorem claim8_zero_copy_view_witness :
    ((NativeBuffer.mk [1, 2, 3]).setElem 0 42).viewGet 0 = 42
    ∧ ((NativeBuffer.mk [1, 2, 3]).setElem 0 42).viewGet 1
        = (NativeBuffer.mk [1, 2, 3]).viewGet 1 :=
  ⟨(claim8_zero_copy_view (NativeBuffer.mk [1, 2, 3]) 0 42 (by decide)).1,
   (claim8_zero_copy_view (NativeBuffer.mk [1, 2, 3]) 0 42 (by decide)).2 1 (by decide)⟩

/-- C7: `filter` fails with `InvalidExpression` when the predicate
references an undefined column, `define` fails with `NameCollision` when
the name already exists upstream; both are raised at graph-construction
time as the operation's immediate outcome, and on failure no node is
linked — a successful call is the only way a new chain arises, and it
appends exactly one node. -/
theorem claim7_construction_errors :
    (∀ (c : Chain) (nm : String) (cols : List String),
        (∃ col ∈ cols, c.schema.contains col = false) →
        c.filterOp nm cols = .error .invalidExpression)
    ∧ (∀ (c : Chain) (nm : String) (cols : List String),
        c.schema.contains nm = true →
        c.defineOp nm cols = .error .nameCollision)
    ∧ (∀ (c : Chain) (nm : String) (cols : List String) (c2 : Chain),
        c.filterOp nm cols = .ok c2 →
        c2.schema = c.schema ∧ c2.nodes = c.nodes ++ [.filterDecl nm cols])
    ∧ (∀ (c : Chain) (nm : String) (cols : List String) (c2 : Chain),
        c.defineOp nm cols = .ok c2 →
        c2.schema = c.schema ++ [nm] ∧ c2.nodes = c.nodes ++ [.defineDecl nm cols]) := by
  refine ⟨?_, ?_, ?_, ?_⟩
  · intro c nm cols ⟨col, hmem, hcol⟩
    unfold Chain.filterOp
    rw [if_neg]
    intro hall
    rw [List.all_eq_true] at hall
    have h1 := hall col hmem
    simp only [hcol] at h1
    exact Bool.noConfusion h1
  · intro c nm cols h
    unfold Chain.defineOp
    rw [if_pos h]
  · intro c nm cols c2 h
    unfold Chain.filterOp at h
    by_cases hall : cols.all (fun col => c.schema.contains col) = true
    · rw [if_pos hall] at h
      injection h with h
      subst h
      exact ⟨rfl, rfl⟩
    · rw [if_neg hall] at h
      cases h
  · intro c nm cols c2 h
    unfold Chain.defineOp at h
    by_cases hnm : c.schema.contains nm = true
    · rw [if_pos hnm] at h
      cases h
    · rw [if_neg hnm] at h
      by_cases hall : cols.all (fun col => c.schema.contains col) = true
      · rw [if_pos hall] at h
        injection h with h
        subst h
        exact ⟨rfl, rfl⟩
      · rw [if_neg hall] at h
        cases h

/-- C7 witness: on the schema of the muon tutorial, filtering on an
unknown column fails with `InvalidExpression` and redefining `nMuon`
fails with `NameCollision`. -/
theorem claim7_construction_errors_witness :
    (Chain.mk ["nMuon"] []).filterOp "cut" ["Muon_pt"] = .error .invalidExpression
    ∧ (Chain.mk ["nMuon"] []).defineOp "nMuon" [] = .error .nameCollision :=
  ⟨claim7_construction_errors.1 (Chain.mk ["nMuon"] []) "cut" ["Muon_pt"]
      ⟨"Muon_pt", by decide, by decide⟩,
   claim7_construction_errors.2.1 (Chain.mk ["nMuon"] []) "nMuon" [] (by decide)⟩

/-- C9: for every Filter node of any evaluated graph's cut-flow report,
the per-filter efficiency equals `passCount / totalSeenAtThisNode`, and
when `totalSeenAtThisNode = 0` it is defined to be `0` rather than a
division error; moreover `passCount ≤ totalSeen` always holds. -/
theorem claim9_efficiency_safe (t : GNode) (rows : List Row)
    (nm : String) (pc tc : Nat)
    (h : (nm, pc, tc) ∈ reportOf t (run t rows)) :
    pc ≤ tc
    ∧ (tc ≠ 0 → efficiency pc tc = (pc : ℚ) / (tc : ℚ))
    ∧ (tc = 0 → efficiency pc tc = 0) := by
  rw [reportOf_run] at h
  refine ⟨declReport_pass_le t rows (nm, pc, tc) h, ?_, ?_⟩
  · intro h0
    unfold efficiency
    rw [if_neg h0]
  · intro h0
    unfold efficiency
    rw [if_pos h0]

/-- C9 witness: a filter that saw no rows (downstream of a
reject-everything filter) reports efficiency `0`, not an error. -/
theorem claim9_efficiency_safe_witness :
    ("empty", 0, 0) ∈ reportOf (.filt "all" (fun _ => false) (.filt "empty" (fun _ => true) (.act .count)))
        (run (.filt "all" (fun _ => false) (.filt "empty" (fun _ => true) (.act .count))) [[("x", 1)]])
    ∧ efficiency 0 0 = 0 := by
  have hm : ("empty", 0, 0) ∈ reportOf (.filt "all" (fun _ => false) (.filt "empty" (fun _ => true) (.act .count)))
      (run (.filt "all" (fun _ => false) (.filt "empty" (fun _ => true) (.act .count))) [[("x", 1)]]) := by
    rw [reportOf_run]
    simp [declReport]
  exact ⟨hm, (claim9_efficiency_safe _ [[("x", 1)]] "empty" 0 0 hm).2.2 rfl⟩

/-- C2: after evaluation the cut-flow report lists, for each named
Filter node in declaration order, the tuple
`(name, passCount, totalSeenAtThisNode)` — operational counters equal the
declarative counts — and for a chain `F1; F2` the cumulative efficiency of
`F2` equals `passCount(F2) / totalSeenAtSourceRoot`; since the report is a
frozen value of the single pass, rendering it in any printing order
produces that same value wherever the entry appears. -/
theorem claim2_cutflow_report :
    (∀ (t : GNode) (rows : List Row), reportOf t (run t rows) = declReport t rows)
    ∧ (∀ (n1 n2 : String) (p1 p2 : Row → Bool) (rest : GNode) (rows : List Row),
        reportOf (.filt n1 p1 (.filt n2 p2 rest))
            (run (.filt n1 p1 (.filt n2 p2 rest)) rows)
          = (n1, (rows.filter p1).length, rows.length)
            :: (n2, ((rows.filter p1).filter p2).length, (rows.filter p1).length)
            :: declReport rest ((rows.filter p1).filter p2))
    ∧ (∀ (n1 n2 : String) (p1 p2 : Row → Bool) (rest : GNode) (rows : List Row)
        (ord : List Nat) (k : Nat), ord.get? k = some 1 →
        (ord.map (cumEffOfEntry
            (reportOf (.filt n1 p1 (.filt n2 p2 rest))
              (run (.filt n1 p1 (.filt n2 p2 rest)) rows)) rows.length)).get? k
          = some ((((rows.filter p1).filter p2).length : ℚ) / (rows.length : ℚ))) := by
  refine ⟨reportOf_run, ?_, ?_⟩
  · intro n1 n2 p1 p2 rest rows
    rw [reportOf_run]
    rfl
  · intro n1 n2 p1 p2 rest rows ord k hk
    rw [List.get?_map, hk, reportOf_run]
    simp [declReport, cumEffOfEntry, cumulativeEff]

/-- C2 witness: the two-filter muon chain on a three-row source — row 1
passes both filters, row 2 fails the second, row 3 fails the first;
printing the report in reversed order still renders cumulative
efficiency 1/3 for the second filter. -/
theorem claim2_cutflow_report_witness :
    ([1, 0] : List Nat).get? 0 = some 1
    ∧ (([1, 0] : List Nat).map (cumEffOfEntry
        (reportOf (.filt "two" (fun r => getCol "n" r == 2)
            (.filt "neq" (fun r => getCol "a" r != getCol "b" r) (.act .count)))
          (run (.filt "two" (fun r => getCol "n" r == 2)
            (.filt "neq" (fun r => getCol "a" r != getCol "b" r) (.act .count)))
            [[("n", 2), ("a", 1), ("b", -1)],
             [("n", 2), ("a", 1), ("b", 1)],
             [("n", 3), ("a", 1), ("b", -1)]])) 3)).get? 0
      = some ((1 : ℚ) / 3) := by
  refine ⟨rfl, ?_⟩
  have h := claim2_cutflow_report.2.2 "two" "neq"
    (fun r => getCol "n" r == 2) (fun r => getCol "a" r != getCol "b" r)
    (.act .count)
    [[("n", 2), ("a", 1), ("b", -1)],
     [("n", 2), ("a", 1), ("b", 1)],
     [("n", 3), ("a", 1), ("b", -1)]]
    [1, 0] 0 rfl
  have hc2 : ((([[("n", 2), ("a", 1), ("b", -1)],
      [("n", 2), ("a", 1), ("b", 1)],
      [("n", 3), ("a", 1), ("b", -1)]] : List Row).filter
        (fun r => getCol "n" r == 2)).filter
        (fun r => getCol "a" r != getCol "b" r)).length = 1 := by decide
  rw [hc2] at h
  simpa using h

/-- C4: a `Range n` node bounds the surviving-row count of its branch to
exactly `min n (rows naturally surviving the upstream chain)`, and a
sibling branch of a branching point evaluates exactly as it would on its
own (the bound does not affect it). -/
theorem claim4_range_bound (ps : List (String × (Row → Bool))) (n : Nat)
    (rows : List Row) :
    actionState (run (chainOf ps (.rang n (.act .count))) rows)
      = some (.count (min n (survivors ps rows).length))
    ∧ ∀ (sib : GNode),
        run (.split (chainOf ps (.rang n (.act .count))) sib) rows
          = .split (run (chainOf ps (.rang n (.act .count))) rows) (run sib rows) := by
  constructor
  · rw [actionState_chainOf, run_rang]
    simp only [actionState]
    rw [run_act]
    simp only [actionState, initAction, count_fold, List.length_take, Nat.zero_add]
  · intro sib
    exact run_split _ sib rows

/-- C5: the array-export action collects the requested columns' values
for every surviving row into column-oriented buffers; each buffer's
length is the number of rows surviving the full chain (bounded by the
Range), and its order is the source row order restricted to surviving
rows. -/
theorem claim5_asnumpy_export (ps : List (String × (Row → Bool))) (n : Nat)
    (cols : List String) (rows : List Row) :
    actionState (run (chainOf ps (.rang n (.act (.asNumpy cols)))) rows)
      = some (.asNumpy (cols.map (fun c => ((survivors ps rows).take n).map (getCol c))))
    ∧ ∀ buf ∈ cols.map (fun c => ((survivors ps rows).take n).map (getCol c)),
        buf.length = min n (survivors ps rows).length := by
  constructor
  · rw [actionState_chainOf, run_rang]
    simp only [actionState]
    rw [run_act]
    have h0 : initAction (.asNumpy cols) = .asNumpy (cols.map (fun _ => ([] : List Int))) := rfl
    rw [h0, asNumpy_fold cols ((survivors ps rows).take n) (fun _ => ([] : List Int))]
    simp [actionState]
  · intro buf hbuf
    rcases List.mem_map.mp hbuf with ⟨c, hc, rfl⟩
    rw [List.length_map, List.length_take]

/-- C5 witness: exporting column "m" through a filter and `Range 1` on a
concrete two-surviving-row source yields the single first surviving
value, in source order. -/
theorem claim5_asnumpy_export_witness :
    actionState (run (chainOf [("pos", fun r => getCol "m" r > 0)]
        (.rang 1 (.act (.asNumpy ["m"])))) [[("m", 5)], [("m", -2)], [("m", 7)]])
      = some (.asNumpy [[5]])
    ∧ ([5] : List Int).length
        = min 1 (survivors [("pos", fun r => getCol "m" r > 0)]
            [[("m", 5)], [("m", -2)], [("m", 7)]]).length := by
  have h := claim5_asnumpy_export [("pos", fun r => getCol "m" r > 0)] 1 ["m"]
    [[("m", 5)], [("m", -2)], [("m", 7)]]
  constructor
  · have h1 := h.1
    simpa [survivors, getCol] using h1
  · exact h.2 [5] (by decide)

/-- C6: for a histogram with fixed binning declared at booking time,
every in-range value falls into exactly one bin index below the bin
count, out-of-range values fall into no bin (dropped, not clamped), and
after the pass the sum over all bins plus the out-of-range drop count
equals the number of rows surviving the chain feeding the histogram. -/
theorem claim6_histogram_accounting (ps : List (String × (Row → Bool)))
    (c : String) (nbins : Nat) (lo hi : Int) (rows : List Row)
    (hn : 0 < nbins) (hlh : lo < hi) :
    (∀ v : Int, lo ≤ v → v < hi → ∃ i, binIdx nbins lo hi v = some i ∧ i < nbins)
    ∧ (∀ v : Int, v < lo ∨ hi ≤ v → binIdx nbins lo hi v = none)
    ∧ ∃ bins drops,
        actionState (run (chainOf ps (.act (.histo c nbins lo hi))) rows)
          = some (.histo bins drops)
        ∧ bins.length = nbins
        ∧ bins.sum + drops = (survivors ps rows).length := by
  refine ⟨?_, ?_, ?_⟩
  · intro v h1 h2
    have hidx : binIdx nbins lo hi v = some ((v - lo) * nbins / (hi - lo)).toNat := by
      unfold binIdx
      rw [if_pos ⟨h1, h2⟩]
    exact ⟨_, hidx, binIdx_lt nbins lo hi v hn hlh _ hidx⟩
  · intro v hv
    unfold binIdx
    rw [if_neg]
    intro hc
    rcases hv with hv | hv
    · exact absurd hc.1 (by omega)
    · exact absurd hc.2 (by omega)
  · rw [actionState_chainOf, run_act]
    have h0 : initAction (.histo c nbins lo hi) = .histo (List.replicate nbins 0) 0 := rfl
    rw [h0]
    obtain ⟨b2, d2, he, hl, hs⟩ := histo_fold c nbins lo hi hn hlh
      (survivors ps rows) (List.replicate nbins 0) 0 (by simp)
    refine ⟨b2, d2, ?_, hl, ?_⟩
    · rw [he]
      rfl
    · rw [hs]
      simp

/-- C6 witness: two surviving rows, one value in range and one out of
range — one bin increment plus one drop, totalling 2. -/
theorem claim6_histogram_accounting_witness :
    (0 : Nat) < 2 ∧ (0 : Int) < 10
    ∧ ∃ bins drops,
        actionState (run (chainOf [] (.act (.histo "x" 2 0 10)))
            [[("x", 3)], [("x", 42)]])
          = some (.histo bins drops)
        ∧ bins.length = 2
        ∧ bins.sum + drops = (survivors [] [[("x", 3)], [("x", 42)]]).length := by
  refine ⟨by decide, by decide, ?_⟩
  exact (claim6_histogram_accounting [] "x" 2 0 10 [[("x", 3)], [("x", 42)]]
    (by decide) (by decide)).2.2

theorem resultAt_error (b : List GNode) (s : List (Except Unit Row)) (i : Nat)
    (e : Unit) (j : Nat) :
    (Graph.mk b s (some (.error e)) i).resultAt j = .error .sourceReadError := rfl

theorem filled_error (b : List GNode) (s : List (Except Unit Row)) (i : Nat)
    (e : Unit) (j : Nat) :
    (Graph.mk b s (some (.error e)) i).filled j = false := rfl

theorem filled_ok (b : List GNode) (s : List (Except Unit Row)) (i : Nat)
    (ss : List GState) (j : Nat) :
    (Graph.mk b s (some (.ok ss)) i).filled j = decide (j < ss.length) := rfl

theorem resultAt_ok (b : List GNode) (s : List (Except Unit Row)) (i : Nat)
    (ss : List GState) (j : Nat) (st : GState) (h : ss.get? j = some st) :
    (Graph.mk b s (some (.ok ss)) i).resultAt j = .ok st := by
  show (match ss.get? j with
        | some s2 => Except.ok s2
        | none => Except.error ReadError.notReady) = Except.ok st
  rw [h]

/-- C1: booking an action returns a handle immediately without executing
anything; the first access to any booked result's or cut-flow report's
value triggers exactly one shared evaluation pass; after any nonempty
sequence of reads on a fresh graph the source has been iterated exactly
once and the cache holds the outcome of the one shared pass, which
populates every booked result with its chain's run over the source
rows. -/
theorem claim1_lazy_booking_single_pass :
    (∀ (g : Graph) (t : GNode),
        (g.book t).1.cache = g.cache
        ∧ (g.book t).1.sourceIters = g.sourceIters
        ∧ (g.book t).2 = g.booked.length)
    ∧ (∀ (g : Graph) (j : Nat), (g.read j).1 = g.evaluate ∧ (g.readReport j).1 = g.evaluate)
    ∧ (∀ (booked : List GNode) (src : List (Except Unit Row)) (js : List Nat),
        js ≠ [] →
        ((mkGraph booked src).readMany js).sourceIters = 1
        ∧ ((mkGraph booked src).readMany js).cache = some (onePass booked src))
    ∧ (∀ (booked : List GNode) (rows : List Row) (js : List Nat) (j : Nat) (t : GNode),
        js ≠ [] → booked.get? j = some t →
        ((mkGraph booked (rows.map Except.ok)).readMany js).resultAt j
          = .ok (run t rows)) := by
  refine ⟨?_, ?_, ?_, ?_⟩
  · intro g t
    exact ⟨rfl, rfl, rfl⟩
  · intro g j
    exact ⟨rfl, rfl⟩
  · intro booked src js h
    rw [readMany_ne_nil _ js h, evaluate_cache _ rfl]
    exact ⟨rfl, rfl⟩
  · intro booked rows js j t h hj
    rw [readMany_ne_nil _ js h]
    have hev : (mkGraph booked (rows.map Except.ok)).evaluate
        = Graph.mk booked (rows.map Except.ok)
            (some (.ok (booked.map (fun t2 => run t2 rows)))) 1 := by
      rw [evaluate_cache _ rfl]
      simp only [mkGraph]
      rw [onePass_ok]
    rw [hev]
    refine resultAt_ok _ _ _ _ _ _ ?_
    rw [List.get?_map, hj]
    rfl

/-- C1 witness: two booked chains over a two-row pure source; reading
both results iterates the source once and returns each chain's run. -/
theorem claim1_lazy_booking_single_pass_witness :
    (((mkGraph [.act .count, .filt "f" (fun r => getCol "x" r > 0) (.act .count)]
        (([[("x", 1)], [("x", -1)]] : List Row).map Except.ok)).readMany
          [0, 1, 0]).sourceIters = 1)
    ∧ (((mkGraph [.act .count, .filt "f" (fun r => getCol "x" r > 0) (.act .count)]
        (([[("x", 1)], [("x", -1)]] : List Row).map Except.ok)).readMany
          [0, 1, 0]).resultAt 1
        = .ok (run (.filt "f" (fun r => getCol "x" r > 0) (.act .count))
            [[("x", 1)], [("x", -1)]])) := by
  constructor
  · exact (claim1_lazy_booking_single_pass.2.2.1
      [.act .count, .filt "f" (fun r => getCol "x" r > 0) (.act .count)]
      (([[("x", 1)], [("x", -1)]] : List Row).map Except.ok)
      [0, 1, 0] (by simp)).1
  · exact claim1_lazy_booking_single_pass.2.2.2
      [.act .count, .filt "f" (fun r => getCol "x" r > 0) (.act .count)]
      [[("x", 1)], [("x", -1)]] [0, 1, 0] 1 _ (by simp) rfl

/-- C3: if row production fails mid-pass, the shared pass fails, every
read surfaces `SourceReadError`, and no booked result is observably
filled; in general (failing or not) the cache is all-or-nothing, so two
valid handles of the same graph are always equally filled — partial
materialisation is never observable. -/
theorem claim3_source_error_atomicity :
    (∀ (booked : List GNode) (src : List (Except Unit Row)) (js : List Nat) (j : Nat),
        Except.error () ∈ src → js ≠ [] →
        onePass booked src = .error ()
        ∧ ((mkGraph booked src).readMany js).resultAt j = .error .sourceReadError
        ∧ ((mkGraph booked src).readMany js).filled j = false)
    ∧ (∀ (booked : List GNode) (src : List (Except Unit Row)) (js : List Nat) (j1 j2 : Nat),
        j1 < booked.length → j2 < booked.length →
        ((mkGraph booked src).readMany js).filled j1
          = ((mkGraph booked src).readMany js).filled j2) := by
  constructor
  · intro booked src js j hbad hne
    have hop : onePass booked src = .error () := onePass_error_of_mem booked src hbad
    have hev : (mkGraph booked src).evaluate
        = Graph.mk booked src (some (.error ())) 1 := by
      rw [evaluate_cache _ rfl]
      simp only [mkGraph]
      rw [hop]
    refine ⟨hop, ?_, ?_⟩
    · rw [readMany_ne_nil _ js hne, hev]
      exact resultAt_error _ _ _ _ _
    · rw [readMany_ne_nil _ js hne, hev]
      exact filled_error _ _ _ _ _
  · intro booked src js j1 j2 h1 h2
    cases js with
    | nil => rfl
    | cons j js2 =>
      rw [readMany_ne_nil _ _ (by simp)]
      cases hop : onePass booked src with
      | error e =>
        have hev : (mkGraph booked src).evaluate
            = Graph.mk booked src (some (.error e)) 1 := by
          rw [evaluate_cache _ rfl]
          simp only [mkGraph]
          rw [hop]
        rw [hev, filled_error, filled_error]
      | ok ss =>
        have hev : (mkGraph booked src).evaluate
            = Graph.mk booked src (some (.ok ss)) 1 := by
          rw [evaluate_cache _ rfl]
          simp only [mkGraph]
          rw [hop]
        have hlen := onePass_length booked src ss hop
        rw [hev, filled_ok, filled_ok, hlen]
        simp [h1, h2]

/-- C3 witness: a source failing on its second read — the pass fails,
reads surface `SourceReadError`, nothing is filled, and two handles of a
two-chain graph are equally (un)filled. -/
theorem claim3_source_error_atomicity_witness :
    (onePass [.act .count, .act .count] [Except.ok [("x", 1)], Except.error ()] = .error ()
    ∧ ((mkGraph [.act .count, .act .count]
        [Except.ok [("x", 1)], Except.error ()]).readMany [0]).resultAt 0
        = .error .sourceReadError
    ∧ ((mkGraph [.act .count, .act .count]
        [Except.ok [("x", 1)], Except.error ()]).readMany [0]).filled 0 = false)
    ∧ ((mkGraph [.act .count, .act .count]
        [Except.ok [("x", 1)], Except.error ()]).readMany [0]).filled 0
      = ((mkGraph [.act .count, .act .count]
        [Except.ok [("x", 1)], Except.error ()]).readMany [0]).filled 1 := by
  constructor
  · exact claim3_source_error_atomicity.1 [.act .count, .act .count]
      [Except.ok [("x", 1)], Except.error ()] [0] 0 (by simp) (by simp)
  · exact claim3_source_error_atomicity.2 [.act .count, .act .count]
      [Except.ok [("x", 1)], Except.error ()] [0] 0 1 (by decide) (by decide)

end RDF
